import Mathlib

/-! The stdout-json reporter of ddosify (`core/report/stdoutJson.go`)

A shallow embedding of the reporter and the properties checked against it.

Modelling conventions

* A Go `map[K]V` is an association list whose keys are pairwise distinct.  A `range`
  loop visits the entries in list order; Go leaves the order unspecified, and every
  theorem below quantifies over all lists, hence over all orders.
* A Go `string` and a `[]byte` are modelled by Lean strings, so the conversion
  `string(b)` keeps the contents as they are.
* `float32` and `float64` values are modelled by exact rationals.
* A goroutine's observable actions are recorded as a list of events, in program order.
* Functions of the Go standard library that are too large to embed
  (`html.UnescapeString`, the syntax check and the decoder of `json.Unmarshal`,
  `json.Marshal` of a dynamic value) and
  functions of the repository that live in other files (`aggregate`,
  `RequestError.Error`) are fields of the structure `Env`; all theorems hold for every
  `Env`.
-/

namespace Ddosify

/-! ## Go maps -/

/-- Go map: association list, keys pairwise distinct, iterated in list order. -/
abbrev GoMap (K V : Type) := List (K × V)

namespace GoMap

variable {K V : Type} [DecidableEq K]

/-- Lookup `m[k]` with the comma-ok result. -/
def get? : GoMap K V → K → Option V
  | [], _ => none
  | (k, v) :: m, x => if k = x then some v else get? m x

/-- Assignment `m[k] = v`: overwrite the entry of `k` or add a new one. -/
def set : GoMap K V → K → V → GoMap K V
  | [], x, y => [(x, y)]
  | (k, v) :: m, x, y => if k = x then (k, y) :: m else (k, v) :: set m x y

/-- The keys of a map, in iteration order. -/
def keys (m : GoMap K V) : List K := m.map Prod.fst

end GoMap

/-! ## Strings -/

/-- Whether `pat` is an initial segment of `text`. -/
def startsWith : List Char → List Char → Bool
  | _, [] => true
  | [], _ :: _ => false
  | a :: text, b :: pat => a == b && startsWith text pat

/-- Substring search on character lists. -/
def containsChars : List Char → List Char → Bool
  | [], pat => pat.isEmpty
  | a :: text, pat => startsWith (a :: text) pat || containsChars text pat

/-- Go `strings.Contains(s, substr)`. -/
def stringsContains (s substr : String) : Bool := containsChars s.data substr.data

/-- Go `strings.Join(elems, sep)`. -/
def stringsJoin (elems : List String) (sep : String) : String := sep.intercalate elems

/-! ## Numbers -/

/-- Go `math.Round`: nearest integer, halves away from zero (on exact rationals). -/
def mathRound (x : ℚ) : ℚ :=
  if 0 ≤ x then (⌊x + 1 / 2⌋ : ℤ) else -((⌊-x + 1 / 2⌋ : ℤ) : ℚ)

/-- The expression `math.Round(float64(v)*p) / p` of `report`, with `p := 1e3`. -/
def round3 (v : ℚ) : ℚ := mathRound (v * 1000) / 1000

/-! ## Values -/

/-- Go `http.Header`: header name to list of values. -/
abbrev Header := GoMap String (List String)

/-- Dynamic values held in an `interface{}`: the entries of `DebugInfo` and the results
of decoding JSON into an empty interface. -/
inductive GoVal where
  | nil
  | bool (b : Bool)
  | float64 (q : ℚ)
  | string (s : String)
  | bytes (b : String)
  | header (h : Header)
  | slice (xs : List GoVal)
  | map (m : List (String × GoVal))

/-- A JSON document (the output of `json.Marshal`, before it is printed as text). -/
inductive JValue where
  | null
  | bool (b : Bool)
  | number (q : ℚ)
  | str (s : String)
  | array (xs : List JValue)
  | object (fields : List (String × JValue))

/-- The fields of a JSON object (empty for any other value). -/
def JValue.fields : JValue → List (String × JValue)
  | .object fs => fs
  | _ => []

/-- The keys of a JSON object. -/
def JValue.keys (j : JValue) : List String := j.fields.map Prod.fst

/-- The value under key `k` of a JSON object. -/
def JValue.field? (j : JValue) (k : String) : Option JValue := GoMap.get? j.fields k

/-- Go `http.Header.Get("content-type")`: the first value stored under the canonical
form `Content-Type` of the key, or the empty string. -/
def Header.getContentType (h : Header) : String :=
  match GoMap.get? h "Content-Type" with
  | some (v :: _) => v
  | _ => ""

/-! ## Input records (package `types`) -/

/-- Modelled from the spec: the declaration of `types.RequestError` is not among the
sources; `stdoutJson.go` reads its field `Type` (here `Type_`) and calls its method `Error`. -/
structure RequestError where
  Type_ : String
  Reason : String

/-- Modelled from the spec: the declaration of `types.ScenarioStepResult` is not among
the sources; these are the fields `stdoutJson.go` reads (step identifier, status code,
error descriptor, debug-info bag of loosely typed values keyed by string tags). -/
structure ScenarioStepResult where
  StepID : Nat
  StatusCode : Int
  Err : RequestError
  DebugInfo : GoMap String GoVal

/-- Modelled from the spec: the declaration of `types.ScenarioResult` is not among the
sources; one completed run of a scenario, an ordered collection of step results. -/
structure ScenarioResult where
  StepResults : List ScenarioStepResult

/-! ## The aggregate report -/

/-- Modelled from the spec: the declaration of `ScenarioStepResultSummary` is not among
the sources.  Per-step aggregate: status-code histogram, error-type histogram, duration
accumulators keyed by internal phase name, and the step's success and fail counts from
which the derived percentages are computed. -/
structure ScenarioStepResultSummary where
  StatusCodeDist : GoMap Int Nat
  ErrorDist : GoMap String Nat
  Durations : GoMap String ℚ
  SuccessCount : Nat
  FailedCount : Nat

/-- Modelled from the spec: the declaration of `Result` is not among the sources.
Total success count, total fail count, running average duration and the mapping from
step identifier to step summary. -/
structure Result where
  SuccessCount : Nat
  FailedCount : Nat
  AvgDuration : ℚ
  StepResults : GoMap Nat ScenarioStepResultSummary

/-- Modelled from the spec: `percentage(count, total) = total==0 ? 0 : round(100*count/total)`,
rounding to nearest with halves away from zero; on natural numbers
`round(100*count/total) = ⌊(200*count + total) / (2*total)⌋`. -/
def percentage (count total : Nat) : Nat :=
  if total = 0 then 0 else (200 * count + total) / (2 * total)

/-- Modelled from the spec: `successPercentage` is not among the sources; the success
share of `success + fail`. -/
def Result.successPercentage (r : Result) : Nat :=
  percentage r.SuccessCount (r.SuccessCount + r.FailedCount)

/-- Modelled from the spec: `failedPercentage` is not among the sources; the fail share
of `success + fail`. -/
def Result.failedPercentage (r : Result) : Nat :=
  percentage r.FailedCount (r.SuccessCount + r.FailedCount)

/-- Modelled from the spec: the step summary's `successPercentage`, same formula on the
step's own counts. -/
def ScenarioStepResultSummary.successPercentage (s : ScenarioStepResultSummary) : Nat :=
  percentage s.SuccessCount (s.SuccessCount + s.FailedCount)

/-- Modelled from the spec: the step summary's `failedPercentage`, same formula on the
step's own counts. -/
def ScenarioStepResultSummary.failedPercentage (s : ScenarioStepResultSummary) : Nat :=
  percentage s.FailedCount (s.SuccessCount + s.FailedCount)

/-! ## External functions -/

/-- Functions the reporter calls and whose code is elsewhere. -/
structure Env where
  /-- The fold `aggregate(result, r)` of the aggregator, as a state transformer. -/
  aggregate : Result → ScenarioResult → Result
  /-- Method `Error()` of `types.RequestError`. -/
  errorString : RequestError → String
  /-- Go `html.UnescapeString`. -/
  unescapeString : String → String
  /-- The syntax check `checkValid` that `json.Unmarshal` runs on the whole input before
  it decodes anything: the syntax error, or `none` for valid JSON. -/
  checkValid : String → Option String
  /-- The decoder that `json.Unmarshal` runs on valid JSON, for a target `interface{}`
  holding the given value: the value the target holds afterwards and the error.  The
  decoder may store a value and still report an error (a number outside the range of
  `float64` inside an object or array). -/
  decode : String → GoVal → GoVal × Option String
  /-- Go `json.Marshal` of a dynamic value. -/
  marshalValue : GoVal → JValue

/-! ## Duration Unit Mapper -/

/-- The table `strKeyToJsonKey`. -/
def strKeyToJsonKey : GoMap String String :=
  [ ("dnsDuration", "dns"),
    ("connDuration", "connection"),
    ("tlsDuration", "tls"),
    ("reqDuration", "request_write"),
    ("serverProcessDuration", "server_processing"),
    ("resDuration", "response_read"),
    ("duration", "total") ]

/-- The index expression `strKeyToJsonKey[d]`: a missing key yields the zero value of
`string`, the empty string. -/
def jsonKey (d : String) : String := (GoMap.get? strKeyToJsonKey d).getD ""

/-! ## Response Decoder -/

/-- A run-time panic, identified by its message. -/
abbrev Panic := String

/-- The name of the dynamic type of a value, as the run-time prints it. -/
def GoVal.typeName : GoVal → String
  | .nil => "nil"
  | .bool _ => "bool"
  | .float64 _ => "float64"
  | .string _ => "string"
  | .bytes _ => "[]uint8"
  | .header _ => "http.Header"
  | .slice _ => "[]interface \x7b\x7d"
  | .map _ => "map[string]interface \x7b\x7d"

/-- The panic of a failed single-value type assertion of `x` to type `want`. -/
def assertionPanic (x : GoVal) (want : String) : Panic :=
  "interface conversion: interface \x7b\x7d is " ++ x.typeName ++ ", not " ++ want

/-- Type assertion `x.(http.Header)`. -/
def GoVal.assertHeader : GoVal → Except Panic Header
  | .header h => .ok h
  | x => .error (assertionPanic x "http.Header")

/-- Type assertion `x.([]byte)`. -/
def GoVal.assertBytes : GoVal → Except Panic String
  | .bytes b => .ok b
  | x => .error (assertionPanic x "[]uint8")

/-- Type assertion `x.(string)`. -/
def GoVal.assertString : GoVal → Except Panic String
  | .string s => .ok s
  | x => .error (assertionPanic x "string")

/-- The index expression `sr.DebugInfo[tag]`: a missing tag yields the nil interface. -/
def debugInfo (sr : ScenarioStepResult) (tag : String) : GoVal :=
  (GoMap.get? sr.DebugInfo tag).getD GoVal.nil

/-- The loop `for k, v := range h { m[k] = strings.Join(v, ",") }` over a header,
starting from the empty map (lines 96-100 and 133-137). -/
def foldHeaders (h : Header) : GoMap String String :=
  h.foldl (fun m kv => GoMap.set m kv.1 (stringsJoin kv.2 ",")) []

/-- Go `json.Unmarshal(data, &v)` for `v` an `interface{}` holding `target`: the value
`v` holds afterwards and the error.  On a syntax error nothing is stored; otherwise the
decoder runs on the target. -/
def jsonUnmarshal (env : Env) (data : String) (target : GoVal) : GoVal × Option String :=
  match env.checkValid data with
  | some err => (target, some err)
  | none => env.decode data target

/-- The function `decodeResponse`: the folded response headers, the decoded body and
the error (`none` for a nil error); the outer `Except` is a panic.  On the JSON path the
body is `respBody` as `json.Unmarshal` left it, on the error return as well. -/
def decodeResponse (env : Env) (sr : ScenarioStepResult) :
    Except Panic (GoMap String String × GoVal × Option String) := do
  let h ← (debugInfo sr "responseHeaders").assertHeader
  let responseHeaders := foldHeaders h
  let contentType := Header.getContentType h
  let byteBody ← (debugInfo sr "responseBody").assertBytes
  let respBody := GoVal.nil
  if stringsContains contentType "text/html" then
    return (responseHeaders, GoVal.string (env.unescapeString byteBody), none)
  else if stringsContains contentType "application/json" then
    let decoded := jsonUnmarshal env byteBody respBody
    match decoded.2 with
    | some err => return (responseHeaders, decoded.1, some err)
    | none => return (responseHeaders, decoded.1, none)
  else if stringsContains contentType "application/xml" then
    return (responseHeaders, GoVal.string byteBody, none)
  else
    return (responseHeaders, GoVal.string byteBody, none)

/-! ## Debug mode -/

/-- The anonymous struct of field `Request`. -/
structure RequestInfo where
  Url : String
  Method : String
  Headers : Option (GoMap String String)
  Body : GoVal

/-- The anonymous struct of field `Response`. -/
structure ResponseInfo where
  StatusCode : Int
  Headers : Option (GoMap String String)
  Body : GoVal

/-- The struct `verboseHttpRequestInfo`; a header map is `none` for the nil map. -/
structure verboseHttpRequestInfo where
  StepId : Nat
  Request : RequestInfo
  Response : ResponseInfo
  Error : String

/-- The zero value of `verboseHttpRequestInfo` (`var verboseInfo verboseHttpRequestInfo`). -/
def verboseHttpRequestInfo.zero : verboseHttpRequestInfo :=
  { StepId := 0,
    Request := { Url := "", Method := "", Headers := none, Body := GoVal.nil },
    Response := { StatusCode := 0, Headers := none, Body := GoVal.nil },
    Error := "" }

/-- Encoding of a `map[string]string` field: `null` for the nil map. -/
def marshalStringMap : Option (GoMap String String) → JValue
  | none => JValue.null
  | some m => JValue.object (m.map (fun kv => (kv.1, JValue.str kv.2)))

/-- Encoding of the `Request` struct. -/
def RequestInfo.marshal (env : Env) (r : RequestInfo) : JValue :=
  JValue.object
    [ ("url", JValue.str r.Url),
      ("method", JValue.str r.Method),
      ("headers", marshalStringMap r.Headers),
      ("body", env.marshalValue r.Body) ]

/-- Encoding of the `Response` struct. -/
def ResponseInfo.marshal (env : Env) (r : ResponseInfo) : JValue :=
  JValue.object
    [ ("statusCode", JValue.number r.StatusCode),
      ("headers", marshalStringMap r.Headers),
      ("body", env.marshalValue r.Body) ]

/-- The method `verboseHttpRequestInfo.MarshalJSON`. -/
def verboseHttpRequestInfo.MarshalJSON (env : Env) (v : verboseHttpRequestInfo) : JValue :=
  if v.Error ≠ "" then
    JValue.object
      [ ("stepId", JValue.number v.StepId),
        ("request", v.Request.marshal env),
        ("error", JValue.str v.Error) ]
  else
    JValue.object
      [ ("stepId", JValue.number v.StepId),
        ("request", v.Request.marshal env),
        ("response", v.Response.marshal env) ]

/-- One iteration of the inner loop of `printInDebugMode` (lines 132-169): the new
contents of `DebugResults` after step result `sr`. -/
def debugStep (env : Env) (results : GoMap Nat verboseHttpRequestInfo)
    (sr : ScenarioStepResult) : Except Panic (GoMap Nat verboseHttpRequestInfo) := do
  let verboseInfo := verboseHttpRequestInfo.zero
  let rh ← (debugInfo sr "requestHeaders").assertHeader
  let requestHeaders := foldHeaders rh
  let verboseInfo := { verboseInfo with StepId := sr.StepID }
  let url ← (debugInfo sr "url").assertString
  let method ← (debugInfo sr "method").assertString
  let verboseInfo := { verboseInfo with
    Request := { Url := url, Method := method, Headers := some requestHeaders,
                 Body := debugInfo sr "requestBody" } }
  if sr.Err.Type_ ≠ "" then
    let verboseInfo := { verboseInfo with Error := env.errorString sr.Err }
    return GoMap.set results verboseInfo.StepId verboseInfo
  else
    let (responseHeaders, responseBody, err) ← decodeResponse env sr
    match err with
    | some _ => return results
    | none =>
      let verboseInfo := { verboseInfo with
        Response := { StatusCode := sr.StatusCode, Headers := some responseHeaders,
                      Body := responseBody } }
      return GoMap.set results verboseInfo.StepId verboseInfo

/-- The inner loop `for _, sr := range r.StepResults`. -/
def debugSteps (env : Env) : GoMap Nat verboseHttpRequestInfo → List ScenarioStepResult →
    Except Panic (GoMap Nat verboseHttpRequestInfo)
  | results, [] => .ok results
  | results, sr :: rest =>
    match debugStep env results sr with
    | .error p => .error p
    | .ok results1 => debugSteps env results1 rest

/-- Encoding of the struct holding `DebugResults` under the tag `steps`: each map key is
written in decimal, each entry by `MarshalJSON`. -/
def marshalDebugResults (env : Env) (results : GoMap Nat verboseHttpRequestInfo) : JValue :=
  JValue.object
    [ ("steps", JValue.object (results.map (fun kv => (toString kv.1, kv.2.MarshalJSON env)))) ]

/-! ## Events -/

/-- Observable actions of `Start`, in program order. -/
inductive Event where
  /-- Normal mode: `aggregate(s.result, r)` has returned for record `r`. -/
  | aggregated (r : ScenarioResult)
  /-- Debug mode: every step of record `r` has been turned into a debug entry or skipped. -/
  | debugged (r : ScenarioResult)
  /-- Normal mode: `printJson(j)` with `j` the encoding of the result. -/
  | printJson (doc : JValue)
  /-- Debug mode: the indented document is written to `out`. -/
  | printDebug (doc : JValue)
  /-- The send `s.doneChan <- struct{}{}`. -/
  | doneSent
  /-- The goroutine panics; nothing follows. -/
  | panicked (p : Panic)

/-- The outer loop of `printInDebugMode` and what follows it. -/
def debugLoop (env : Env) : GoMap Nat verboseHttpRequestInfo → List ScenarioResult → List Event
  | results, [] => [Event.printDebug (marshalDebugResults env results)]
  | results, r :: input =>
    match debugSteps env results r.StepResults with
    | .error p => [Event.panicked p]
    | .ok results1 => Event.debugged r :: debugLoop env results1 input

/-- The method `printInDebugMode`, on the records received until the channel is closed. -/
def printInDebugMode (env : Env) (input : List ScenarioResult) : List Event :=
  debugLoop env [] input

/-! ## Report Encoder -/

/-- Modelled from the spec: the stored fields of the embedded `ItemReport`, whose
declaration is not among the sources: status-code histogram, error histogram and the
`durations` object.  The spec names only `durations`; the two histogram keys are named
after the fields. -/
def itemReportFields (s : ScenarioStepResultSummary) : List (String × JValue) :=
  [ ("status_code_dist",
      JValue.object (s.StatusCodeDist.map (fun kv => (toString kv.1, JValue.number kv.2)))),
    ("error_dist",
      JValue.object (s.ErrorDist.map (fun kv => (kv.1, JValue.number kv.2)))),
    ("durations",
      JValue.object (s.Durations.map (fun kv => (kv.1, JValue.number kv.2)))) ]

/-- The method `ScenarioStepResultSummary.MarshalJSON`: the embedded item report, then
`success_perc` and `fail_perc`. -/
def ScenarioStepResultSummary.MarshalJSON (s : ScenarioStepResultSummary) : JValue :=
  JValue.object
    (itemReportFields s ++
      [ ("success_perc", JValue.number s.successPercentage),
        ("fail_perc", JValue.number s.failedPercentage) ])

/-- Modelled from the spec: the stored fields of the embedded `Report`, whose
declaration is not among the sources: `avg_duration` and `steps`, each step encoded by
its own `MarshalJSON` under its identifier in decimal. -/
def reportFields (r : Result) : List (String × JValue) :=
  [ ("avg_duration", JValue.number r.AvgDuration),
    ("steps",
      JValue.object (r.StepResults.map (fun kv => (toString kv.1, kv.2.MarshalJSON)))) ]

/-- The method `Result.MarshalJSON`: `success_perc`, `fail_perc`, then the embedded
report. -/
def Result.MarshalJSON (r : Result) : JValue :=
  JValue.object
    ([ ("success_perc", JValue.number r.successPercentage),
       ("fail_perc", JValue.number r.failedPercentage) ] ++ reportFields r)

/-! ## Reporter -/

/-- The struct `stdoutJson`; sends on `doneChan` are recorded as events. -/
structure stdoutJson where
  result : Result
  debug : Bool

/-- The method `Init`. -/
def Init (debug : Bool) : stdoutJson :=
  { result := { SuccessCount := 0, FailedCount := 0, AvgDuration := 0, StepResults := [] },
    debug := debug }

/-- The inner loop of `report` (lines 71-76): the fresh map `durations` after ranging
over `itemReport.Durations`. -/
def roundDurations (ds : GoMap String ℚ) : GoMap String ℚ :=
  ds.foldl (fun durations kv => GoMap.set durations (jsonKey kv.1) (round3 kv.2)) []

/-- The state change of `report` (lines 66-78): the average and every step's durations
are rounded, and the duration keys replaced. -/
def reportResult (r : Result) : Result :=
  { r with
    AvgDuration := round3 r.AvgDuration,
    StepResults :=
      r.StepResults.map (fun kv => (kv.1, { kv.2 with Durations := roundDurations kv.2.Durations })) }

/-- The method `report`: new state and the events performed. -/
def report (s : stdoutJson) : stdoutJson × List Event :=
  let result := reportResult s.result
  ({ s with result := result }, [Event.printJson result.MarshalJSON])

/-- The method `listenAndAggregate`, on the records received until the channel is
closed: new state and the events performed. -/
def listenAndAggregate (env : Env) (s : stdoutJson) : List ScenarioResult → stdoutJson × List Event
  | [] => (s, [Event.doneSent])
  | r :: input =>
    let next := listenAndAggregate env { s with result := env.aggregate s.result r } input
    (next.1, Event.aggregated r :: next.2)

/-- Whether an event is a panic. -/
def Event.isPanic : Event → Bool
  | .panicked _ => true
  | _ => false

/-- Whether an event is the completion send. -/
def Event.isDone : Event → Bool
  | .doneSent => true
  | _ => false

/-- Whether an event is the emission of a document. -/
def Event.isPrint : Event → Bool
  | .printJson _ => true
  | .printDebug _ => true
  | _ => false

/-- Sequencing of two statements: the second runs unless the first panicked. -/
def andThen (first second : List Event) : List Event :=
  if first.any Event.isPanic then first else first ++ second

/-- The method `Start`, on the records received until the channel is closed: new state
and the events performed. -/
def Start (env : Env) (s : stdoutJson) (input : List ScenarioResult) : stdoutJson × List Event :=
  if s.debug then
    (s, andThen (printInDebugMode env input) [Event.doneSent])
  else
    let s1 := listenAndAggregate env s input
    let s2 := report s1.1
    (s2.1, andThen s1.2 s2.2)

/-! ## Specification-side definitions and sample inputs -/

/-- The renaming of the Duration Unit Mapper as the specification words it: the fixed
table, and every other name unchanged. -/
def renameSpec : String → String
  | "dnsDuration" => "dns"
  | "connDuration" => "connection"
  | "tlsDuration" => "tls"
  | "reqDuration" => "request_write"
  | "serverProcessDuration" => "server_processing"
  | "resDuration" => "response_read"
  | "duration" => "total"
  | k => k

/-- A step summary whose durations carry two phase names outside the table. -/
def unknownItem : ScenarioStepResultSummary :=
  { StatusCodeDist := [], ErrorDist := [], Durations := [("foo", 1), ("bar", 2)],
    SuccessCount := 1, FailedCount := 0 }

/-- A reporter state with one step whose durations carry two unknown phase names. -/
def unknownPhases : stdoutJson :=
  { result :=
      { SuccessCount := 1, FailedCount := 0, AvgDuration := 0,
        StepResults := [(1, unknownItem)] },
    debug := false }

/-- The durations maps of the steps, in iteration order. -/
def stepDurations (r : Result) : List (GoMap String ℚ) := r.StepResults.map (fun kv => kv.2.Durations)

/-- A step summary whose duration keys all belong to the table. -/
def knownItem : ScenarioStepResultSummary :=
  { StatusCodeDist := [(200, 1)], ErrorDist := [],
    Durations := [("dnsDuration", 12345 / 10000), ("duration", 2)],
    SuccessCount := 1, FailedCount := 0 }

/-- A reporter state holding `knownItem` as step 1. -/
def knownPhases : stdoutJson :=
  { result := { SuccessCount := 1, FailedCount := 0, AvgDuration := 2, StepResults := [(1, knownItem)] },
    debug := false }

/-- A result with one success and seven failures. -/
def oneOfEight : Result :=
  { SuccessCount := 1, FailedCount := 7, AvgDuration := 0, StepResults := [] }

/-- A step summary with one success and seven failures. -/
def oneOfEightStep : ScenarioStepResultSummary :=
  { StatusCodeDist := [], ErrorDist := [], Durations := [], SuccessCount := 1, FailedCount := 7 }

/-- The sum `success_perc + fail_perc` the specification derives for `success` successes
and `fail` failures: `0` without outcomes, `101` when `100*success/(success+fail)` lies
halfway between two integers (both shares round up), `100` otherwise. -/
def percSum (success fail : Nat) : Nat :=
  if success + fail = 0 then 0
  else if (200 * success) % (2 * (success + fail)) = success + fail then 101
  else 100

/-- The keys of each step object of a document with a `steps` mapping. -/
def stepKeys (doc : JValue) : List (List String) :=
  ((doc.field? "steps").getD JValue.null).fields.map (fun kv => kv.2.keys)

/-- The documents emitted along a trace. -/
def printedDocs : List Event → List JValue
  | [] => []
  | Event.printJson doc :: rest => doc :: printedDocs rest
  | Event.printDebug doc :: rest => doc :: printedDocs rest
  | _ :: rest => printedDocs rest

/-- Whether a list of keys holds exactly one of `error` and `response`. -/
def exactlyOneOfErrorResponse (ks : List String) : Bool :=
  xor (ks.contains "error") (ks.contains "response")

/-- Whether a dynamic value is an `http.Header`. -/
def GoVal.isHeader : GoVal → Bool
  | .header _ => true
  | _ => false

/-- Whether a dynamic value is a `[]byte`. -/
def GoVal.isBytes : GoVal → Bool
  | .bytes _ => true
  | _ => false

/-- Whether a dynamic value is a `string`. -/
def GoVal.isString : GoVal → Bool
  | .string _ => true
  | _ => false

/-- The debug-info contract `printInDebugMode` relies on for a step: request headers,
url and method have their types, and so do response headers and response body when the
step carries no error (they are read only then); header maps have distinct keys. -/
def wellTyped (sr : ScenarioStepResult) : Bool :=
  (debugInfo sr "requestHeaders").isHeader
    && (debugInfo sr "url").isString
    && (debugInfo sr "method").isString
    && (decide (sr.Err.Type_ ≠ "")
        || ((debugInfo sr "responseHeaders").isHeader && (debugInfo sr "responseBody").isBytes))

/-- Whether `decodeResponse` returns a nil error for the step. -/
def decodes (env : Env) (sr : ScenarioStepResult) : Bool :=
  match decodeResponse env sr with
  | .ok (_, _, none) => true
  | _ => false

/-- Whether the step carries an error or its response decodes. -/
def present (env : Env) (sr : ScenarioStepResult) : Bool :=
  decide (sr.Err.Type_ ≠ "") || decodes env sr

/-- The entry `debugStep` stores for a step carrying an error. -/
def errorEntry (env : Env) (sr : ScenarioStepResult) (rh : Header) (url method : String) :
    verboseHttpRequestInfo :=
  { StepId := sr.StepID,
    Request := { Url := url, Method := method, Headers := some (foldHeaders rh),
                 Body := debugInfo sr "requestBody" },
    Response := { StatusCode := 0, Headers := none, Body := GoVal.nil },
    Error := env.errorString sr.Err }

/-- The entry `debugStep` stores for a step whose response decodes to `body`. -/
def responseEntry (sr : ScenarioStepResult) (rh : Header) (url method : String)
    (h : Header) (body : GoVal) : verboseHttpRequestInfo :=
  { StepId := sr.StepID,
    Request := { Url := url, Method := method, Headers := some (foldHeaders rh),
                 Body := debugInfo sr "requestBody" },
    Response := { StatusCode := sr.StatusCode, Headers := some (foldHeaders h), Body := body },
    Error := "" }

/-- A sample environment for evaluating the definitions on concrete inputs.  Its
functions stand in for the Go ones and agree with them on the inputs used below:
`html.UnescapeString` on `&lt;b&gt;` and on text without `&`; the syntax check on the
valid inputs `\x7b"a":1\x7d` and `\x7b"a":1e999\x7d` and on the truncated input
`\x7b"a":`; the decoder on `\x7b"a":1\x7d`, which it stores as a map, and on
`\x7b"a":1e999\x7d`, where the number does not fit `float64`: the decoder records the
error, stores nil for the number, goes on and stores the map. -/
def sampleEnv : Env :=
  { aggregate := fun result r =>
      if r.StepResults.all (fun sr => decide (sr.Err.Type_ = "")) then
        { result with SuccessCount := result.SuccessCount + 1 }
      else { result with FailedCount := result.FailedCount + 1 },
    errorString := fun e => e.Reason,
    unescapeString := fun s => if s = "&lt;b&gt;" then "<b>" else s,
    checkValid := fun b =>
      if b = "\x7b\"a\":1\x7d" then none
      else if b = "\x7b\"a\":1e999\x7d" then none
      else some "unexpected end of JSON input",
    decode := fun b target =>
      if b = "\x7b\"a\":1\x7d" then (GoVal.map [("a", GoVal.float64 1)], none)
      else if b = "\x7b\"a\":1e999\x7d" then
        (GoVal.map [("a", GoVal.nil)],
          some "json: cannot unmarshal number 1e999 into Go value of type float64")
      else (target, none),
    marshalValue := fun
      | GoVal.bool b => JValue.bool b
      | GoVal.float64 q => JValue.number q
      | GoVal.string s => JValue.str s
      | _ => JValue.null }

/-- The debug info of a GET request answered with the given headers and body. -/
def sampleDebugInfo (responseHeaders : Header) (responseBody : String) : GoMap String GoVal :=
  [ ("url", GoVal.string "https://example.com/"),
    ("method", GoVal.string "GET"),
    ("requestHeaders", GoVal.header [("Accept", ["text/html", "application/json"])]),
    ("requestBody", GoVal.bytes ""),
    ("responseHeaders", GoVal.header responseHeaders),
    ("responseBody", GoVal.bytes responseBody) ]

/-- A step answered 200 with an HTML body. -/
def htmlStep : ScenarioStepResult :=
  { StepID := 1, StatusCode := 200, Err := { Type_ := "", Reason := "" },
    DebugInfo := sampleDebugInfo
      [("Content-Type", ["text/html; charset=utf-8"]), ("Set-Cookie", ["a", "b", "c"])]
      "&lt;b&gt;" }

/-- A step answered 200 with a JSON object. -/
def jsonStep : ScenarioStepResult :=
  { StepID := 2, StatusCode := 200, Err := { Type_ := "", Reason := "" },
    DebugInfo := sampleDebugInfo [("Content-Type", ["application/json"])] "\x7b\"a\":1\x7d" }

/-- A step answered 200 with a truncated JSON body. -/
def badJsonStep : ScenarioStepResult :=
  { StepID := 3, StatusCode := 200, Err := { Type_ := "", Reason := "" },
    DebugInfo := sampleDebugInfo [("Content-Type", ["application/json"])] "\x7b\"a\":" }

/-- A step answered 200 with a JSON object that is valid JSON and holds a number outside
the range of `float64`. -/
def hugeNumberStep : ScenarioStepResult :=
  { StepID := 5, StatusCode := 200, Err := { Type_ := "", Reason := "" },
    DebugInfo := sampleDebugInfo [("Content-Type", ["application/json"])] "\x7b\"a\":1e999\x7d" }

/-- A step whose request failed; it carries no response material. -/
def failedStep : ScenarioStepResult :=
  { StepID := 4, StatusCode := 0, Err := { Type_ := "connError", Reason := "connection refused" },
    DebugInfo :=
      [ ("url", GoVal.string "https://example.com/"),
        ("method", GoVal.string "GET"),
        ("requestHeaders", GoVal.header []),
        ("requestBody", GoVal.bytes "") ] }

/-- A step whose debug info is empty. -/
def untypedStep : ScenarioStepResult :=
  { StepID := 1, StatusCode := 200, Err := { Type_ := "", Reason := "" }, DebugInfo := [] }

/-- The event recording that record `r` has been consumed, by mode. -/
def consumed (debug : Bool) (r : ScenarioResult) : Event :=
  if debug then Event.debugged r else Event.aggregated r

/-- The number of completion sends in a trace. -/
def doneCount (trace : List Event) : Nat := (trace.filter Event.isDone).length

/-- A scenario result with an HTML step, a JSON step, a step with a truncated JSON body
and a failed step. -/
def sampleRecord : ScenarioResult :=
  { StepResults := [htmlStep, jsonStep, badJsonStep, failedStep] }

/-- A scenario result whose only step has no debug info. -/
def untypedRecord : ScenarioResult := { StepResults := [untypedStep] }

/-! ## Lemmas on maps -/

namespace GoMap
variable {K V : Type} [DecidableEq K]

theorem set_of_not_mem (m : GoMap K V) (k : K) (v : V) (h : k ∉ keys m) :
    set m k v = m ++ [(k, v)] := by
  induction m with
  | nil => rfl
  | cons kv m ih =>
    obtain ⟨a, b⟩ := kv
    have ha : a ≠ k := fun e => h (by simp [keys, e])
    have hm : k ∉ keys m := fun e => h (by simp only [keys, List.map_cons, List.mem_cons]; exact Or.inr e)
    simp [set, ha, ih hm]

theorem mem_keys_set (m : GoMap K V) (k : K) (v : V) (x : K) :
    x ∈ keys (set m k v) ↔ x = k ∨ x ∈ keys m := by
  induction m with
  | nil => simp [set, keys]
  | cons kv m ih =>
    obtain ⟨a, b⟩ := kv
    by_cases ha : a = k
    · subst ha
      simp [set, keys]
    · simp only [set, ha, if_false, keys, List.map_cons, List.mem_cons]
      simp only [keys] at ih
      rw [ih]
      tauto

theorem get?_map_snd {W : Type} (m : GoMap K V) (f : K × V → W) (k : K) :
    get? (m.map (fun kv => (kv.1, f kv))) k = (get? m k).map (fun v => f (k, v)) := by
  induction m with
  | nil => rfl
  | cons kv m ih =>
    obtain ⟨a, b⟩ := kv
    by_cases ha : a = k
    · subst ha
      simp [get?]
    · simp [get?, ha, ih]

theorem foldl_set_fresh {A : Type} (f : A → K) (g : A → V) (l : List A) (acc : GoMap K V)
    (hnodup : (l.map f).Nodup) (hfresh : ∀ a ∈ l, f a ∉ keys acc) :
    l.foldl (fun m a => set m (f a) (g a)) acc = acc ++ l.map (fun a => (f a, g a)) := by
  induction l generalizing acc with
  | nil => simp
  | cons a l ih =>
    simp only [List.map_cons, List.nodup_cons] at hnodup
    have h1 : set acc (f a) (g a) = acc ++ [(f a, g a)] :=
      set_of_not_mem acc _ _ (hfresh a (List.mem_cons_self _ _))
    simp only [List.foldl_cons, h1]
    rw [ih _ hnodup.2]
    · simp
    · intro b hb hmem
      simp only [keys, List.map_append, List.map_cons, List.map_nil, List.mem_append,
        List.mem_singleton] at hmem
      rcases hmem with hmem | hmem
      · exact hfresh b (List.mem_cons_of_mem _ hb) hmem
      · exact hnodup.1 (hmem ▸ List.mem_map_of_mem f hb)

theorem mem_keys_foldl_set {A : Type} (f : A → K) (g : A → V) (l : List A) (acc : GoMap K V)
    (x : K) :
    x ∈ keys (l.foldl (fun m a => set m (f a) (g a)) acc) ↔ x ∈ keys acc ∨ ∃ a ∈ l, f a = x := by
  induction l generalizing acc with
  | nil => simp
  | cons a l ih =>
    simp only [List.foldl_cons]
    rw [ih, mem_keys_set]
    constructor
    · rintro ((h | h) | ⟨b, hb, h⟩)
      · exact Or.inr ⟨a, List.mem_cons_self _ _, h.symm⟩
      · exact Or.inl h
      · exact Or.inr ⟨b, List.mem_cons_of_mem _ hb, h⟩
    · rintro (h | ⟨b, hb, h⟩)
      · exact Or.inl (Or.inr h)
      · rcases List.mem_cons.1 hb with e | hb
        · subst e
          exact Or.inl (Or.inl h.symm)
        · exact Or.inr ⟨b, hb, h⟩


theorem get?_of_not_mem (m : GoMap K V) (k : K) (h : k ∉ keys m) : get? m k = none := by
  induction m with
  | nil => rfl
  | cons kv m ih =>
    obtain ⟨a, b⟩ := kv
    have ha : a ≠ k := fun e => h (by simp [keys, e])
    have hm : k ∉ keys m := fun e => h (by simp only [keys, List.map_cons, List.mem_cons]; exact Or.inr e)
    simp [get?, ha, ih hm]

theorem mem_of_get? (m : GoMap K V) (k : K) (v : V) (h : get? m k = some v) : (k, v) ∈ m := by
  induction m with
  | nil => simp [get?] at h
  | cons kv m ih =>
    obtain ⟨a, b⟩ := kv
    by_cases ha : a = k
    · subst ha
      simp [get?] at h
      simp [h]
    · simp only [get?, ha, if_false] at h
      exact List.mem_cons_of_mem _ (ih h)

end GoMap

/-! ## Lemmas on the Duration Unit Mapper and rounding -/

theorem jsonKey_known (k : String) (h : k ∈ GoMap.keys strKeyToJsonKey) :
    jsonKey k = renameSpec k := by
  simp only [GoMap.keys, strKeyToJsonKey, List.map_cons, List.map_nil, List.mem_cons,
    List.mem_singleton, List.not_mem_nil, or_false] at h
  rcases h with rfl | rfl | rfl | rfl | rfl | rfl | rfl <;> decide

theorem jsonKey_unknown (k : String) (h : k ∉ GoMap.keys strKeyToJsonKey) : jsonKey k = "" := by
  simp [jsonKey, GoMap.get?_of_not_mem _ _ h]

theorem jsonKey_injOn (x : String) (hx : x ∈ GoMap.keys strKeyToJsonKey) (y : String)
    (hy : y ∈ GoMap.keys strKeyToJsonKey) (h : jsonKey x = jsonKey y) : x = y := by
  simp only [GoMap.keys, strKeyToJsonKey, List.map_cons, List.map_nil, List.mem_cons,
    List.mem_singleton, List.not_mem_nil, or_false] at hx hy
  rcases hx with rfl | rfl | rfl | rfl | rfl | rfl | rfl <;>
    rcases hy with rfl | rfl | rfl | rfl | rfl | rfl | rfl <;>
    first
      | rfl
      | exact absurd h (by decide)

theorem jsonKey_range (k : String) :
    jsonKey k = "" ∨ jsonKey k ∈ strKeyToJsonKey.map Prod.snd := by
  unfold jsonKey
  cases hg : GoMap.get? strKeyToJsonKey k with
  | none => exact Or.inl rfl
  | some v =>
    right
    exact List.mem_map_of_mem Prod.snd (GoMap.mem_of_get? _ _ _ hg)

theorem mathRound_isInt (x : ℚ) : ∃ n : ℤ, mathRound x = n := by
  unfold mathRound
  split
  · exact ⟨_, rfl⟩
  · exact ⟨-⌊-x + 1 / 2⌋, by push_cast; ring⟩

theorem mathRound_near (x : ℚ) : |mathRound x - x| ≤ 1 / 2 := by
  unfold mathRound
  split
  · have h1 := Int.floor_le (x + 1 / 2)
    have h2 := Int.lt_floor_add_one (x + 1 / 2)
    rw [abs_le]
    constructor <;> linarith
  · have h1 := Int.floor_le (-x + 1 / 2)
    have h2 := Int.lt_floor_add_one (-x + 1 / 2)
    rw [abs_le]
    constructor <;> linarith

theorem round3_isInt (v : ℚ) : ∃ n : ℤ, 1000 * round3 v = n := by
  obtain ⟨n, hn⟩ := mathRound_isInt (v * 1000)
  exact ⟨n, by unfold round3; rw [hn]; field_simp⟩

theorem round3_near (v : ℚ) : |round3 v - v| ≤ 1 / 2000 := by
  have h := mathRound_near (v * 1000)
  have e : round3 v - v = (mathRound (v * 1000) - v * 1000) / 1000 := by
    unfold round3; ring
  rw [e, abs_div]
  rw [abs_of_pos (by norm_num : (0:ℚ) < 1000)]
  rw [div_le_iff₀ (by norm_num : (0:ℚ) < 1000)]
  linarith

theorem roundDurations_known (ds : GoMap String ℚ) (hnodup : (GoMap.keys ds).Nodup)
    (hknown : ∀ k ∈ GoMap.keys ds, k ∈ GoMap.keys strKeyToJsonKey) :
    roundDurations ds = ds.map (fun kv => (renameSpec kv.1, round3 kv.2)) := by
  have hnd : (ds.map (fun kv => jsonKey kv.1)).Nodup := by
    have : ds.map (fun kv => jsonKey kv.1) = (GoMap.keys ds).map jsonKey := by
      simp [GoMap.keys, List.map_map, Function.comp_def]
    rw [this]
    exact List.Nodup.map_on (fun x hx y hy h => jsonKey_injOn x (hknown x hx) y (hknown y hy) h) hnodup
  have h := GoMap.foldl_set_fresh (fun kv : String × ℚ => jsonKey kv.1) (fun kv => round3 kv.2)
    ds [] hnd (by intro a _; simp [GoMap.keys])
  unfold roundDurations
  rw [h, List.nil_append]
  apply List.map_congr_left
  intro kv hkv
  show (jsonKey kv.1, round3 kv.2) = (renameSpec kv.1, round3 kv.2)
  rw [jsonKey_known kv.1 (hknown _ (List.mem_map_of_mem Prod.fst hkv))]

theorem reportResult_get? (r : Result) (id : Nat) :
    GoMap.get? (reportResult r).StepResults id =
      (GoMap.get? r.StepResults id).map
        (fun item => { item with Durations := roundDurations item.Durations }) := by
  unfold reportResult
  exact GoMap.get?_map_snd r.StepResults
    (fun kv => { kv.2 with Durations := roundDurations kv.2.Durations }) id

/-! ## Lemmas on percentages -/

theorem div_of_bounds (m n k r : Nat) (h : m = n * k + r) (hr : r < n) : m / n = k := by
  subst h
  rw [Nat.mul_add_div (by omega), Nat.div_eq_of_lt hr, Nat.add_zero]

theorem round_pair (N M x y : Nat) (hN : 0 < N) (hM : M = 2 * N) (hxy : x + y = 100 * M) :
    (x + N) / M + (y + N) / M = if x % M = N then 101 else 100 := by
  have hMpos : 0 < M := by omega
  have e := Nat.div_add_mod x M
  have r := Nat.mod_lt x hMpos
  generalize x / M = q at e
  generalize x % M = t at e r ⊢
  have hq : q ≤ 100 := by
    by_contra hc
    have : M * 101 ≤ M * q := Nat.mul_le_mul_left M (by omega)
    omega
  have hsub : M * (100 - q) + M * q = 100 * M := by
    rw [← Nat.mul_add, Nat.sub_add_cancel hq, Nat.mul_comm]
  rcases Nat.lt_trichotomy t N with hlt | heq | hgt
  · have h1 : (x + N) / M = q := div_of_bounds _ _ _ (t + N) (by omega) (by omega)
    have h2 : (y + N) / M = 100 - q := div_of_bounds _ _ _ (N - t) (by omega) (by omega)
    rw [h1, h2, if_neg (by omega)]
    omega
  · have hmul : M * (q + 1) = M * q + M := by ring
    have h1 : (x + N) / M = q + 1 := div_of_bounds _ _ _ 0 (by omega) (by omega)
    have h2 : (y + N) / M = 100 - q := div_of_bounds _ _ _ 0 (by omega) (by omega)
    rw [h1, h2, if_pos heq]
    omega
  · have hq99 : q ≤ 99 := by
      by_contra hc
      have : M * 100 ≤ M * q := Nat.mul_le_mul_left M (by omega)
      omega
    have hmul : M * (q + 1) = M * q + M := by ring
    have hsub2 : M * (99 - q) + M * q = 99 * M := by
      rw [← Nat.mul_add, Nat.sub_add_cancel hq99, Nat.mul_comm]
    have h1 : (x + N) / M = q + 1 := div_of_bounds _ _ _ (t - N) (by omega) (by omega)
    have h2 : (y + N) / M = 99 - q := div_of_bounds _ _ _ (M + N - t) (by omega) (by omega)
    rw [h1, h2, if_neg (by omega)]
    omega

theorem percentage_sum (a b : Nat) :
    percentage a (a + b) + percentage b (a + b) = percSum a b := by
  unfold percentage percSum
  by_cases h0 : a + b = 0
  · simp [h0]
  · simp only [h0, if_false]
    exact round_pair (a + b) (2 * (a + b)) (200 * a) (200 * b) (Nat.pos_of_ne_zero h0) rfl
      (by ring)

/-! ## Lemmas on the debug encoding -/

theorem stepKeys_marshalDebugResults (env : Env) (results : GoMap Nat verboseHttpRequestInfo) :
    stepKeys (marshalDebugResults env results) =
      results.map (fun kv => (kv.2.MarshalJSON env).keys) := by
  simp [stepKeys, marshalDebugResults, JValue.field?, GoMap.get?, JValue.fields, List.map_map,
    Function.comp_def]

theorem marshal_keys (env : Env) (v : verboseHttpRequestInfo) :
    (v.MarshalJSON env).keys =
      if v.Error ≠ "" then ["stepId", "request", "error"] else ["stepId", "request", "response"] := by
  unfold verboseHttpRequestInfo.MarshalJSON
  split <;> rfl

theorem marshal_exactlyOne (env : Env) (v : verboseHttpRequestInfo) :
    exactlyOneOfErrorResponse (v.MarshalJSON env).keys = true := by
  rw [marshal_keys]
  split <;> decide

theorem debugLoop_docs (env : Env) (input : List ScenarioResult)
    (results : GoMap Nat verboseHttpRequestInfo) :
    (printedDocs (debugLoop env results input)).all
      (fun doc => (stepKeys doc).all exactlyOneOfErrorResponse) = true := by
  induction input generalizing results with
  | nil =>
    simp only [debugLoop, printedDocs, List.all_cons, List.all_nil, Bool.and_true]
    rw [stepKeys_marshalDebugResults, List.all_eq_true]
    intro ks hks
    obtain ⟨kv, _, rfl⟩ := List.mem_map.1 hks
    exact marshal_exactlyOne env kv.2
  | cons r input ih =>
    simp only [debugLoop]
    cases debugSteps env results r.StepResults with
    | error p => rfl
    | ok results1 => exact ih results1

/-! ## Lemmas on the Response Decoder and the debug loop -/

theorem foldHeaders_eq (h : Header) (hnodup : (GoMap.keys h).Nodup) :
    foldHeaders h = h.map (fun kv => (kv.1, stringsJoin kv.2 ",")) := by
  have e := GoMap.foldl_set_fresh (fun kv : String × List String => kv.1)
    (fun kv => stringsJoin kv.2 ",") h [] hnodup (by intro a _; simp [GoMap.keys])
  unfold foldHeaders
  rw [e, List.nil_append]

theorem decodeResponse_eq (env : Env) (sr : ScenarioStepResult) (h : Header) (b : String)
    (hh : debugInfo sr "responseHeaders" = GoVal.header h)
    (hb : debugInfo sr "responseBody" = GoVal.bytes b) :
    decodeResponse env sr =
      .ok (foldHeaders h,
        if stringsContains (Header.getContentType h) "text/html" then
          (GoVal.string (env.unescapeString b), none)
        else if stringsContains (Header.getContentType h) "application/json" then
          jsonUnmarshal env b GoVal.nil
        else (GoVal.string b, none)) := by
  unfold decodeResponse
  simp only [hh, hb, GoVal.assertHeader, GoVal.assertBytes, bind, Except.bind, pure, Except.pure]
  by_cases h1 : stringsContains (Header.getContentType h) "text/html" = true
  · simp [h1]
  · by_cases h2 : stringsContains (Header.getContentType h) "application/json" = true
    · generalize jsonUnmarshal env b GoVal.nil = decoded
      obtain ⟨v, e⟩ := decoded
      cases e <;> simp [h1, h2]
    · simp only [h1, h2, if_false]
      simp

theorem isHeader_elim (v : GoVal) (h : v.isHeader = true) : ∃ x, v = GoVal.header x := by
  cases v <;> simp [GoVal.isHeader] at h
  exact ⟨_, rfl⟩

theorem isBytes_elim (v : GoVal) (h : v.isBytes = true) : ∃ x, v = GoVal.bytes x := by
  cases v <;> simp [GoVal.isBytes] at h
  exact ⟨_, rfl⟩

theorem isString_elim (v : GoVal) (h : v.isString = true) : ∃ x, v = GoVal.string x := by
  cases v <;> simp [GoVal.isString] at h
  exact ⟨_, rfl⟩

theorem debugStep_error (env : Env) (results : GoMap Nat verboseHttpRequestInfo)
    (sr : ScenarioStepResult) (rh : Header) (url method : String)
    (hrh : debugInfo sr "requestHeaders" = GoVal.header rh)
    (hurl : debugInfo sr "url" = GoVal.string url)
    (hmethod : debugInfo sr "method" = GoVal.string method)
    (herr : sr.Err.Type_ ≠ "") :
    debugStep env results sr =
      .ok (GoMap.set results sr.StepID (errorEntry env sr rh url method)) := by
  unfold debugStep
  simp only [hrh, hurl, hmethod, GoVal.assertHeader, GoVal.assertString, bind, Except.bind, pure,
    Except.pure, herr, ne_eq, not_false_eq_true, if_true]
  rfl

theorem debugStep_response (env : Env) (results : GoMap Nat verboseHttpRequestInfo)
    (sr : ScenarioStepResult) (rh : Header) (url method : String) (h : Header) (b : String)
    (hrh : debugInfo sr "requestHeaders" = GoVal.header rh)
    (hurl : debugInfo sr "url" = GoVal.string url)
    (hmethod : debugInfo sr "method" = GoVal.string method)
    (herr : sr.Err.Type_ = "")
    (hh : debugInfo sr "responseHeaders" = GoVal.header h)
    (hb : debugInfo sr "responseBody" = GoVal.bytes b) :
    ∃ body err, decodeResponse env sr = .ok (foldHeaders h, body, err) ∧
      debugStep env results sr =
        .ok (match err with
          | some _ => results
          | none => GoMap.set results sr.StepID (responseEntry sr rh url method h body)) := by
  have hd := decodeResponse_eq env sr h b hh hb
  generalize (if stringsContains (Header.getContentType h) "text/html" then
          (GoVal.string (env.unescapeString b), none)
        else if stringsContains (Header.getContentType h) "application/json" then
          jsonUnmarshal env b GoVal.nil
        else (GoVal.string b, (none : Option String))) = be at hd
  obtain ⟨body, err⟩ := be
  refine ⟨body, err, hd, ?_⟩
  unfold debugStep
  simp only [hrh, hurl, hmethod, GoVal.assertHeader, GoVal.assertString, bind, Except.bind, pure,
    Except.pure, herr, ne_eq, not_true_eq_false, if_false, hd]
  cases err <;> rfl

theorem wellTyped_elim (sr : ScenarioStepResult) (h : wellTyped sr = true) :
    (∃ rh, debugInfo sr "requestHeaders" = GoVal.header rh)
      ∧ (∃ url, debugInfo sr "url" = GoVal.string url)
      ∧ (∃ method, debugInfo sr "method" = GoVal.string method)
      ∧ (sr.Err.Type_ = "" →
          (∃ hd, debugInfo sr "responseHeaders" = GoVal.header hd)
            ∧ ∃ b, debugInfo sr "responseBody" = GoVal.bytes b) := by
  simp only [wellTyped, Bool.and_eq_true, Bool.or_eq_true, decide_eq_true_eq] at h
  obtain ⟨⟨⟨h1, h2⟩, h3⟩, h4⟩ := h
  refine ⟨isHeader_elim _ h1, isString_elim _ h2, isString_elim _ h3, fun he => ?_⟩
  rcases h4 with h4 | ⟨h5, h6⟩
  · exact absurd he h4
  · exact ⟨isHeader_elim _ h5, isBytes_elim _ h6⟩

theorem debugStep_wellTyped (env : Env) (results : GoMap Nat verboseHttpRequestInfo)
    (sr : ScenarioStepResult) (h : wellTyped sr = true) :
    ∃ v, debugStep env results sr =
      .ok (if present env sr = true then GoMap.set results sr.StepID v else results) := by
  obtain ⟨⟨rh, hrh⟩, ⟨url, hurl⟩, ⟨method, hmethod⟩, hresp⟩ := wellTyped_elim sr h
  by_cases herr : sr.Err.Type_ = ""
  · obtain ⟨⟨hd, hhd⟩, ⟨b, hb⟩⟩ := hresp herr
    obtain ⟨body, err, hdec, hs⟩ :=
      debugStep_response env results sr rh url method hd b hrh hurl hmethod herr hhd hb
    refine ⟨responseEntry sr rh url method hd body, ?_⟩
    rw [hs]
    cases err with
    | some e => simp [present, decodes, herr, hdec]
    | none => simp [present, decodes, herr, hdec]
  · refine ⟨errorEntry env sr rh url method, ?_⟩
    rw [debugStep_error env results sr rh url method hrh hurl hmethod herr]
    simp [present, herr]

theorem debugSteps_keys (env : Env) (steps : List ScenarioStepResult)
    (results : GoMap Nat verboseHttpRequestInfo)
    (hnodup : (steps.map (fun sr => sr.StepID)).Nodup)
    (hfresh : ∀ sr ∈ steps, sr.StepID ∉ GoMap.keys results)
    (hwt : ∀ sr ∈ steps, wellTyped sr = true) :
    ∃ results1, debugSteps env results steps = .ok results1 ∧
      GoMap.keys results1 =
        GoMap.keys results ++ (steps.filter (present env)).map (fun sr => sr.StepID) := by
  induction steps generalizing results with
  | nil => exact ⟨results, rfl, by simp⟩
  | cons sr steps ih =>
    simp only [List.map_cons, List.nodup_cons] at hnodup
    obtain ⟨v, hv⟩ := debugStep_wellTyped env results sr (hwt sr (List.mem_cons_self _ _))
    have hwt1 : ∀ x ∈ steps, wellTyped x = true := fun x hx => hwt x (List.mem_cons_of_mem _ hx)
    simp only [debugSteps, hv]
    by_cases hp : present env sr = true
    · simp only [hp, if_true]
      have hset := GoMap.set_of_not_mem results sr.StepID v (hfresh sr (List.mem_cons_self _ _))
      obtain ⟨results1, h1, h2⟩ := ih (GoMap.set results sr.StepID v) hnodup.2
        (by
          intro x hx hmem
          rw [GoMap.mem_keys_set] at hmem
          rcases hmem with hmem | hmem
          · exact hnodup.1 (hmem ▸ List.mem_map_of_mem (fun sr => sr.StepID) hx)
          · exact hfresh x (List.mem_cons_of_mem _ hx) hmem)
        hwt1
      refine ⟨results1, h1, ?_⟩
      rw [h2, hset]
      simp [GoMap.keys, List.filter_cons, hp]
    · simp only [hp, if_false]
      obtain ⟨results1, h1, h2⟩ := ih results hnodup.2
        (fun x hx => hfresh x (List.mem_cons_of_mem _ hx)) hwt1
      refine ⟨results1, h1, ?_⟩
      rw [h2]
      simp [List.filter_cons, hp]

theorem debugSteps_ok (env : Env) (steps : List ScenarioStepResult)
    (results : GoMap Nat verboseHttpRequestInfo)
    (hwt : ∀ sr ∈ steps, wellTyped sr = true) :
    ∃ results1, debugSteps env results steps = .ok results1 := by
  induction steps generalizing results with
  | nil => exact ⟨results, rfl⟩
  | cons sr steps ih =>
    obtain ⟨v, hv⟩ := debugStep_wellTyped env results sr (hwt sr (List.mem_cons_self _ _))
    simp only [debugSteps, hv]
    exact ih _ (fun x hx => hwt x (List.mem_cons_of_mem _ hx))

theorem debugLoop_wellTyped (env : Env) (input : List ScenarioResult)
    (results : GoMap Nat verboseHttpRequestInfo)
    (hwt : ∀ r ∈ input, ∀ sr ∈ r.StepResults, wellTyped sr = true) :
    ∃ results1, debugLoop env results input =
      input.map Event.debugged ++ [Event.printDebug (marshalDebugResults env results1)] := by
  induction input generalizing results with
  | nil => exact ⟨results, rfl⟩
  | cons r input ih =>
    obtain ⟨results1, h1⟩ := debugSteps_ok env r.StepResults results
      (hwt r (List.mem_cons_self _ _))
    obtain ⟨results2, h2⟩ := ih results1 (fun x hx => hwt x (List.mem_cons_of_mem _ hx))
    exact ⟨results2, by simp only [debugLoop, h1, h2, List.map_cons, List.cons_append]⟩

/-! ## Lemmas on the traces of `Start` -/

theorem listenAndAggregate_eq (env : Env) (s : stdoutJson) (input : List ScenarioResult) :
    listenAndAggregate env s input =
      ({ s with result := input.foldl env.aggregate s.result },
        input.map Event.aggregated ++ [Event.doneSent]) := by
  induction input generalizing s with
  | nil => rfl
  | cons r input ih =>
    simp only [listenAndAggregate, ih, List.foldl_cons, List.map_cons, List.cons_append]

theorem any_isPanic_map_aggregated (input : List ScenarioResult) :
    (input.map Event.aggregated).any Event.isPanic = false := by
  induction input with
  | nil => rfl
  | cons r input ih => simp [Event.isPanic, ih]

theorem any_isPanic_map_debugged (input : List ScenarioResult) :
    (input.map Event.debugged).any Event.isPanic = false := by
  induction input with
  | nil => rfl
  | cons r input ih => simp [Event.isPanic, ih]

theorem filter_isDone_map_aggregated (input : List ScenarioResult) :
    (input.map Event.aggregated).filter Event.isDone = [] := by
  induction input with
  | nil => rfl
  | cons r input ih => simp [Event.isDone, ih]

theorem filter_isDone_map_debugged (input : List ScenarioResult) :
    (input.map Event.debugged).filter Event.isDone = [] := by
  induction input with
  | nil => rfl
  | cons r input ih => simp [Event.isDone, ih]

theorem start_normal (env : Env) (s : stdoutJson) (input : List ScenarioResult)
    (hd : s.debug = false) :
    (Start env s input).2 =
      input.map Event.aggregated ++
        [Event.doneSent,
          Event.printJson (reportResult (input.foldl env.aggregate s.result)).MarshalJSON] := by
  unfold Start
  simp only [hd, Bool.false_eq_true, if_false, listenAndAggregate_eq, report, andThen]
  have hp : (input.map Event.aggregated ++ [Event.doneSent]).any Event.isPanic = false := by
    rw [List.any_append, any_isPanic_map_aggregated]; rfl
  simp only [hp, Bool.false_eq_true, if_false, List.append_assoc, List.singleton_append]

theorem start_debug (env : Env) (s : stdoutJson) (input : List ScenarioResult)
    (hd : s.debug = true)
    (hwt : ∀ r ∈ input, ∀ sr ∈ r.StepResults, wellTyped sr = true) :
    ∃ results, (Start env s input).2 =
      input.map Event.debugged ++
        [Event.printDebug (marshalDebugResults env results), Event.doneSent] := by
  obtain ⟨results, hr⟩ := debugLoop_wellTyped env input [] hwt
  refine ⟨results, ?_⟩
  unfold Start
  simp only [hd, if_true, printInDebugMode, hr, andThen]
  have hp : (input.map Event.debugged ++
      [Event.printDebug (marshalDebugResults env results)]).any Event.isPanic = false := by
    rw [List.any_append, any_isPanic_map_debugged]; rfl
  simp only [hp, Bool.false_eq_true, if_false, List.append_assoc, List.singleton_append]

/-! ## The checked properties -/

/-- C7: for a step summary whose duration keys all belong to the fixed table, `report`
replaces the durations map by exactly the entries `rename k -> round3 v` of the original
map, with as many entries and again pairwise distinct keys; `1000 * round3 v` is an
integer and `round3 v` is within `1/2000` of `v`; the average duration is replaced by
its `round3`; and the document printed is the encoding of that result. -/
theorem report_known_durations (s : stdoutJson) (id : Nat) (item : ScenarioStepResultSummary)
    (hget : GoMap.get? s.result.StepResults id = some item)
    (hnodup : (GoMap.keys item.Durations).Nodup)
    (hknown : ∀ k ∈ GoMap.keys item.Durations, k ∈ GoMap.keys strKeyToJsonKey) :
    GoMap.get? (report s).1.result.StepResults id =
        some { item with
          Durations := item.Durations.map (fun kv => (renameSpec kv.1, round3 kv.2)) }
      ∧ (GoMap.keys (item.Durations.map (fun kv => (renameSpec kv.1, round3 kv.2)))).Nodup
      ∧ (item.Durations.map (fun kv => (renameSpec kv.1, round3 kv.2))).length
          = item.Durations.length
      ∧ (∀ v : ℚ, (∃ n : ℤ, 1000 * round3 v = n) ∧ |round3 v - v| ≤ 1 / 2000)
      ∧ (report s).1.result.AvgDuration = round3 s.result.AvgDuration
      ∧ (report s).2 = [Event.printJson (report s).1.result.MarshalJSON] := by
  have hr := roundDurations_known item.Durations hnodup hknown
  refine ⟨?_, ?_, by simp, fun v => ⟨round3_isInt v, round3_near v⟩, rfl, rfl⟩
  · show GoMap.get? (reportResult s.result).StepResults id = _
    rw [reportResult_get?, hget, Option.map_some', hr]
  · have hk : GoMap.keys (item.Durations.map (fun kv => (renameSpec kv.1, round3 kv.2)))
        = (GoMap.keys item.Durations).map jsonKey := by
      simp only [GoMap.keys, List.map_map]
      apply List.map_congr_left
      intro kv hkv
      exact (jsonKey_known kv.1 (hknown _ (List.mem_map_of_mem Prod.fst hkv))).symm
    rw [hk]
    exact List.Nodup.map_on
      (fun x hx y hy h => jsonKey_injOn x (hknown x hx) y (hknown y hy) h) hnodup

/-- Witness of C7 on a summary with the phases `dnsDuration` and `duration`: the
hypotheses hold, the emitted durations are keyed `dns` and `total`, and 1.2345 is
rounded to 1.235. -/
theorem report_known_durations_witness :
    (GoMap.get? knownPhases.result.StepResults 1 = some knownItem
      ∧ (GoMap.keys knownItem.Durations).Nodup
      ∧ ∀ k ∈ GoMap.keys knownItem.Durations, k ∈ GoMap.keys strKeyToJsonKey)
    ∧ GoMap.get? (report knownPhases).1.result.StepResults 1 =
        some { knownItem with
          Durations := knownItem.Durations.map (fun kv => (renameSpec kv.1, round3 kv.2)) }
    ∧ GoMap.keys (knownItem.Durations.map (fun kv => (renameSpec kv.1, round3 kv.2)))
        = ["dns", "total"]
    ∧ round3 (12345 / 10000) = 1235 / 1000 :=
  ⟨⟨rfl, by decide, by decide⟩,
    (report_known_durations knownPhases 1 knownItem rfl (by decide) (by decide)).1,
    by decide,
    by norm_num [round3, mathRound]⟩

/-- C1, counterexample: a step whose durations are keyed by the unknown phases `foo`
and `bar` is emitted with the single key `""`; neither `foo` nor `bar` is a key of the
emitted map. -/
theorem report_unknown_key_lost :
    stepDurations unknownPhases.result = [[("foo", 1), ("bar", 2)]]
      ∧ "foo" ∉ GoMap.keys strKeyToJsonKey
      ∧ "bar" ∉ GoMap.keys strKeyToJsonKey
      ∧ (stepDurations (report unknownPhases).1.result).map GoMap.keys = [[""]]
      ∧ ¬ (∀ k ∈ GoMap.keys unknownItem.Durations, k ∉ GoMap.keys strKeyToJsonKey →
            ∀ ds ∈ stepDurations (report unknownPhases).1.result, k ∈ GoMap.keys ds) :=
  ⟨rfl, by decide, by decide, by decide, by decide⟩

/-- C1, amended: `report` files the value of a duration key outside the table under the
empty string: the index expression yields `""` for it, the emitted map has an entry
under `""`, and every key of the emitted map is `""` or one of the seven external
names. -/
theorem report_unknown_key (s : stdoutJson) (id : Nat) (item : ScenarioStepResultSummary)
    (k : String)
    (hget : GoMap.get? s.result.StepResults id = some item)
    (hk : k ∈ GoMap.keys item.Durations)
    (hunknown : k ∉ GoMap.keys strKeyToJsonKey) :
    jsonKey k = ""
      ∧ GoMap.get? (report s).1.result.StepResults id =
          some { item with Durations := roundDurations item.Durations }
      ∧ "" ∈ GoMap.keys (roundDurations item.Durations)
      ∧ ∀ j ∈ GoMap.keys (roundDurations item.Durations),
          j = "" ∨ j ∈ strKeyToJsonKey.map Prod.snd := by
  have hj := jsonKey_unknown k hunknown
  refine ⟨hj, ?_, ?_, ?_⟩
  · show GoMap.get? (reportResult s.result).StepResults id = _
    rw [reportResult_get?, hget, Option.map_some']
  · unfold roundDurations
    rw [GoMap.mem_keys_foldl_set (fun kv : String × ℚ => jsonKey kv.1) (fun kv => round3 kv.2)]
    right
    obtain ⟨kv, hkv, hfst⟩ := List.mem_map.1 hk
    exact ⟨kv, hkv, by show jsonKey kv.1 = ""; rw [hfst, hj]⟩
  · intro j hmem
    unfold roundDurations at hmem
    rw [GoMap.mem_keys_foldl_set (fun kv : String × ℚ => jsonKey kv.1) (fun kv => round3 kv.2)]
      at hmem
    rcases hmem with hmem | ⟨kv, _, hkv⟩
    · simp [GoMap.keys] at hmem
    · rw [← hkv]
      exact jsonKey_range kv.1

/-- Witness of the amended C1 on the step keyed by `foo` and `bar`. -/
theorem report_unknown_key_witness :
    (GoMap.get? unknownPhases.result.StepResults 1 = some unknownItem
      ∧ "foo" ∈ GoMap.keys unknownItem.Durations
      ∧ "foo" ∉ GoMap.keys strKeyToJsonKey)
    ∧ jsonKey "foo" = ""
    ∧ "" ∈ GoMap.keys (roundDurations unknownItem.Durations) :=
  ⟨⟨rfl, by decide, by decide⟩,
    (report_unknown_key unknownPhases 1 unknownItem "foo" rfl (by decide) (by decide)).1,
    (report_unknown_key unknownPhases 1 unknownItem "foo" rfl (by decide) (by decide)).2.2.1⟩

/-- C3, counterexample: with one success and seven failures (N = 8) the stated formula
gives `success_perc = round(12.5) = 13` and `fail_perc = round(87.5) = 88`, both in the
result encoding and in the step encoding; their sum is 101, not 100. -/
theorem percentages_sum_101 :
    0 < oneOfEight.SuccessCount + oneOfEight.FailedCount
      ∧ oneOfEight.MarshalJSON.field? "success_perc" = some (JValue.number (13 : Nat))
      ∧ oneOfEight.MarshalJSON.field? "fail_perc" = some (JValue.number (88 : Nat))
      ∧ oneOfEight.successPercentage + oneOfEight.failedPercentage ≠ 100
      ∧ 0 < oneOfEightStep.SuccessCount + oneOfEightStep.FailedCount
      ∧ oneOfEightStep.MarshalJSON.field? "success_perc" = some (JValue.number (13 : Nat))
      ∧ oneOfEightStep.MarshalJSON.field? "fail_perc" = some (JValue.number (88 : Nat))
      ∧ oneOfEightStep.successPercentage + oneOfEightStep.failedPercentage ≠ 100 :=
  ⟨by decide, rfl, rfl, by decide, by decide, rfl, rfl, by decide⟩

/-- C3, amended: the encodings of a result and of a step summary carry the derived
fields `success_perc` and `fail_perc`; for counts `success` and `fail` their sum is
`percSum success fail`, that is 0 when there is no outcome (each share is then 0), 101
when `100*success/(success+fail)` lies halfway between two integers, and 100
otherwise. -/
theorem marshal_percentages (r : Result) (s : ScenarioStepResultSummary) :
    r.MarshalJSON.field? "success_perc" = some (JValue.number r.successPercentage)
      ∧ r.MarshalJSON.field? "fail_perc" = some (JValue.number r.failedPercentage)
      ∧ r.successPercentage + r.failedPercentage = percSum r.SuccessCount r.FailedCount
      ∧ s.MarshalJSON.field? "success_perc" = some (JValue.number s.successPercentage)
      ∧ s.MarshalJSON.field? "fail_perc" = some (JValue.number s.failedPercentage)
      ∧ s.successPercentage + s.failedPercentage = percSum s.SuccessCount s.FailedCount
      ∧ (∀ count : Nat, percentage count 0 = 0)
      ∧ percSum 0 0 = 0 :=
  ⟨rfl, rfl, percentage_sum _ _, rfl, rfl, percentage_sum _ _, fun _ => rfl, rfl⟩

/-- C4: the object produced by `MarshalJSON` has the keys `stepId`, `request`, `error`
when the error string is non-empty and `stepId`, `request`, `response` when it is empty;
`error` then holds the error string; exactly one of `error` and `response` is a key; and
in every document printed in debug mode each step object holds exactly one of the
two. -/
theorem verbose_marshal_exclusive (env : Env) (v : verboseHttpRequestInfo)
    (input : List ScenarioResult) :
    (v.MarshalJSON env).keys =
        (if v.Error ≠ "" then ["stepId", "request", "error"]
          else ["stepId", "request", "response"])
      ∧ (v.MarshalJSON env).field? "error" =
          (if v.Error ≠ "" then some (JValue.str v.Error) else none)
      ∧ (v.MarshalJSON env).field? "response" =
          (if v.Error ≠ "" then none else some (v.Response.marshal env))
      ∧ exactlyOneOfErrorResponse (v.MarshalJSON env).keys = true
      ∧ (printedDocs (printInDebugMode env input)).all
          (fun doc => (stepKeys doc).all exactlyOneOfErrorResponse) = true := by
  refine ⟨marshal_keys env v, ?_, ?_, marshal_exactlyOne env v, debugLoop_docs env input []⟩
  · unfold verboseHttpRequestInfo.MarshalJSON
    split <;> rfl
  · unfold verboseHttpRequestInfo.MarshalJSON
    split <;> rfl

/-- C5: with `ct` the content type of the response headers and `b` the raw body, the
body returned by `decodeResponse` follows the first matching rule: the HTML-unescaped
text of `b` when `ct` contains `text/html` (whatever else it contains); otherwise the
value `b` parses to when `ct` contains `application/json` and `b` parses (that is,
`json.Unmarshal` into the nil `respBody` leaves a value and returns a nil error);
otherwise, when `ct` contains neither, the string of `b` unchanged. -/
theorem decodeResponse_body (env : Env) (sr : ScenarioStepResult) (h : Header) (b : String)
    (hh : debugInfo sr "responseHeaders" = GoVal.header h)
    (hb : debugInfo sr "responseBody" = GoVal.bytes b) :
    (stringsContains (Header.getContentType h) "text/html" = true →
        decodeResponse env sr =
          .ok (foldHeaders h, GoVal.string (env.unescapeString b), none))
      ∧ (stringsContains (Header.getContentType h) "text/html" = false →
          stringsContains (Header.getContentType h) "application/json" = true →
          ∀ v, jsonUnmarshal env b GoVal.nil = (v, none) →
            decodeResponse env sr = .ok (foldHeaders h, v, none))
      ∧ (stringsContains (Header.getContentType h) "text/html" = false →
          stringsContains (Header.getContentType h) "application/json" = false →
          decodeResponse env sr = .ok (foldHeaders h, GoVal.string b, none)) := by
  have hd := decodeResponse_eq env sr h b hh hb
  refine ⟨fun h1 => ?_, fun h1 h2 v hv => ?_, fun h1 h2 => ?_⟩
  · rw [hd]; simp [h1]
  · rw [hd]; simp [h1, h2, hv]
  · rw [hd]; simp [h1, h2]

/-- Witness of C5 on an HTML response with body `&lt;b&gt;`: the hypotheses hold, the
content type contains `text/html`, and the decoded body is `<b>`; a JSON response with
body `\x7b"a":1\x7d` decodes to the object mapping `a` to 1. -/
theorem decodeResponse_body_witness :
    (debugInfo htmlStep "responseHeaders" =
        GoVal.header [("Content-Type", ["text/html; charset=utf-8"]), ("Set-Cookie", ["a", "b", "c"])]
      ∧ debugInfo htmlStep "responseBody" = GoVal.bytes "&lt;b&gt;")
    ∧ decodeResponse sampleEnv htmlStep =
        .ok (foldHeaders [("Content-Type", ["text/html; charset=utf-8"]), ("Set-Cookie", ["a", "b", "c"])],
          GoVal.string (sampleEnv.unescapeString "&lt;b&gt;"), none)
    ∧ sampleEnv.unescapeString "&lt;b&gt;" = "<b>"
    ∧ decodeResponse sampleEnv jsonStep =
        .ok ([("Content-Type", "application/json")], GoVal.map [("a", GoVal.float64 1)], none) :=
  ⟨⟨rfl, rfl⟩,
    (decodeResponse_body sampleEnv htmlStep
      [("Content-Type", ["text/html; charset=utf-8"]), ("Set-Cookie", ["a", "b", "c"])]
      "&lt;b&gt;" rfl rfl).1 (by decide),
    by decide, rfl⟩

/-- C6, counterexample: for content type `application/json` and the body
`\x7b"a":1e999\x7d`, which is valid JSON, `json.Unmarshal` stores the map and reports
that the number does not fit; `decodeResponse` returns that error together with the
stored map, so an error is returned although the body is valid JSON, and the returned
body is not nil. -/
theorem decodeResponse_error_with_body :
    decodeResponse sampleEnv hugeNumberStep =
        .ok ([("Content-Type", "application/json")], GoVal.map [("a", GoVal.nil)],
          some "json: cannot unmarshal number 1e999 into Go value of type float64")
      ∧ sampleEnv.checkValid "\x7b\"a\":1e999\x7d" = none
      ∧ GoVal.map [("a", GoVal.nil)] ≠ GoVal.nil
      ∧ ¬ (∀ hm body err, decodeResponse sampleEnv hugeNumberStep = .ok (hm, body, err) →
            err ≠ none → body = GoVal.nil ∧ sampleEnv.checkValid "\x7b\"a\":1e999\x7d" ≠ none) := by
  refine ⟨rfl, by decide, fun h => GoVal.noConfusion h, fun hall => ?_⟩
  have h := hall _ _ _ rfl (by simp)
  exact GoVal.noConfusion h.1

/-- C6, amended: `decodeResponse` returns a non-nil error exactly when the content type
does not contain `text/html`, contains `application/json`, and `json.Unmarshal` of the
body returns an error; the error is then the one of `json.Unmarshal` and the body is
what `json.Unmarshal` left in `respBody`.  A body that is not valid JSON always makes
`json.Unmarshal` fail, and `decodeResponse` then returns the syntax error with a nil
body. -/
theorem decodeResponse_error (env : Env) (sr : ScenarioStepResult) (h : Header) (b : String)
    (hh : debugInfo sr "responseHeaders" = GoVal.header h)
    (hb : debugInfo sr "responseBody" = GoVal.bytes b) :
    (∃ body err, decodeResponse env sr = .ok (foldHeaders h, body, err)
      ∧ (err ≠ none ↔
          stringsContains (Header.getContentType h) "text/html" = false
            ∧ stringsContains (Header.getContentType h) "application/json" = true
            ∧ (jsonUnmarshal env b GoVal.nil).2 ≠ none)
      ∧ (err ≠ none → (body, err) = jsonUnmarshal env b GoVal.nil))
    ∧ (∀ e, env.checkValid b = some e → jsonUnmarshal env b GoVal.nil = (GoVal.nil, some e))
    ∧ (stringsContains (Header.getContentType h) "text/html" = false →
        stringsContains (Header.getContentType h) "application/json" = true →
        ∀ e, env.checkValid b = some e →
          decodeResponse env sr = .ok (foldHeaders h, GoVal.nil, some e)) := by
  have hd := decodeResponse_eq env sr h b hh hb
  have hsyn : ∀ e, env.checkValid b = some e →
      jsonUnmarshal env b GoVal.nil = (GoVal.nil, some e) := by
    intro e he
    simp [jsonUnmarshal, he]
  refine ⟨?_, hsyn, ?_⟩
  · by_cases h1 : stringsContains (Header.getContentType h) "text/html" = true
    · refine ⟨GoVal.string (env.unescapeString b), none, ?_, ?_, ?_⟩
      · rw [hd]; simp [h1]
      · simp [h1]
      · simp
    · by_cases h2 : stringsContains (Header.getContentType h) "application/json" = true
      · refine ⟨(jsonUnmarshal env b GoVal.nil).1, (jsonUnmarshal env b GoVal.nil).2, ?_, ?_, ?_⟩
        · rw [hd]; simp [h1, h2]
        · simp [h1, h2]
        · simp
      · refine ⟨GoVal.string b, none, ?_, ?_, ?_⟩
        · rw [hd]; simp [h1, h2]
        · simp [h2]
        · simp
  · intro h1 h2 e he
    rw [hd, hsyn e he]
    simp [h1, h2]

/-- Witness of the amended C6 on a JSON response with the truncated body `\x7b"a":`: the
hypotheses hold, the body is not valid JSON, and `decodeResponse` returns the syntax
error with a nil body. -/
theorem decodeResponse_error_witness :
    (debugInfo badJsonStep "responseHeaders" = GoVal.header [("Content-Type", ["application/json"])]
      ∧ debugInfo badJsonStep "responseBody" = GoVal.bytes "\x7b\"a\":"
      ∧ stringsContains (Header.getContentType [("Content-Type", ["application/json"])])
          "text/html" = false
      ∧ stringsContains (Header.getContentType [("Content-Type", ["application/json"])])
          "application/json" = true
      ∧ sampleEnv.checkValid "\x7b\"a\":" = some "unexpected end of JSON input")
    ∧ decodeResponse sampleEnv badJsonStep
        = .ok (foldHeaders [("Content-Type", ["application/json"])], GoVal.nil,
            some "unexpected end of JSON input") :=
  ⟨⟨rfl, rfl, by decide, by decide, by decide⟩,
    (decodeResponse_error sampleEnv badJsonStep [("Content-Type", ["application/json"])]
      "\x7b\"a\":" rfl rfl).2.2 (by decide) (by decide) _ (by decide)⟩

/-- C10: for response headers `h` (a map, so with distinct names) `decodeResponse`
returns, with whatever body and error, the header map holding each name of `h` once, in
the same order, mapped to its values joined by `,`; the names are those of `h`, a name
with values `vs` maps to `strings.Join(vs, ",")`, and `a, b, c` joins to `a,b,c`.  Any
entry `debugStep` stores for a step with request headers `rh` carries the request
headers folded in the same way. -/
theorem headers_folded (env : Env) (sr : ScenarioStepResult) (h : Header) (b : String)
    (hh : debugInfo sr "responseHeaders" = GoVal.header h)
    (hb : debugInfo sr "responseBody" = GoVal.bytes b)
    (hnodup : (GoMap.keys h).Nodup) :
    (∃ body err,
        decodeResponse env sr = .ok (h.map (fun kv => (kv.1, stringsJoin kv.2 ",")), body, err))
      ∧ GoMap.keys (h.map (fun kv => (kv.1, stringsJoin kv.2 ","))) = GoMap.keys h
      ∧ (∀ k, GoMap.get? (h.map (fun kv => (kv.1, stringsJoin kv.2 ","))) k =
            (GoMap.get? h k).map (fun vs => stringsJoin vs ","))
      ∧ stringsJoin ["a"] "," = "a"
      ∧ stringsJoin ["a", "b", "c"] "," = "a,b,c"
      ∧ (∀ (results results1 : GoMap Nat verboseHttpRequestInfo) (rh : Header),
          debugInfo sr "requestHeaders" = GoVal.header rh → (GoMap.keys rh).Nodup →
          debugStep env results sr = .ok results1 →
          results1 = results ∨
            ∃ v, results1 = GoMap.set results sr.StepID v ∧
              v.Request.Headers = some (rh.map (fun kv => (kv.1, stringsJoin kv.2 ",")))) := by
  have hd := decodeResponse_eq env sr h b hh hb
  rw [foldHeaders_eq h hnodup] at hd
  refine ⟨⟨_, _, hd⟩, ?_, ?_, by decide, by decide, ?_⟩
  · simp [GoMap.keys, List.map_map, Function.comp_def]
  · intro k
    exact GoMap.get?_map_snd h (fun kv => stringsJoin kv.2 ",") k
  · intro results results1 rh hrh hrhnodup hstep
    cases hu : debugInfo sr "url" with
    | string url =>
      cases hm : debugInfo sr "method" with
      | string method =>
        by_cases herr : sr.Err.Type_ = ""
        · obtain ⟨body, err, _, hs⟩ :=
            debugStep_response env results sr rh url method h b hrh hu hm herr hh hb
          rw [hs] at hstep
          cases err with
          | some e => left; exact (Except.ok.inj hstep).symm
          | none =>
            right
            exact ⟨_, (Except.ok.inj hstep).symm, by
              simp [responseEntry, foldHeaders_eq rh hrhnodup]⟩
        · rw [debugStep_error env results sr rh url method hrh hu hm herr] at hstep
          right
          exact ⟨_, (Except.ok.inj hstep).symm, by
            simp [errorEntry, foldHeaders_eq rh hrhnodup]⟩
      | _ =>
        exfalso
        unfold debugStep at hstep
        simp [hrh, hu, hm, GoVal.assertHeader, GoVal.assertString, bind, Except.bind] at hstep
    | _ =>
      exfalso
      unfold debugStep at hstep
      simp [hrh, hu, GoVal.assertHeader, GoVal.assertString, bind, Except.bind] at hstep

/-- Witness of C10 on a response with a single-valued `Content-Type` and a three-valued
`Set-Cookie` header: the hypotheses hold, `Set-Cookie` maps to `a,b,c`. -/
theorem headers_folded_witness :
    (debugInfo htmlStep "responseHeaders" =
        GoVal.header [("Content-Type", ["text/html; charset=utf-8"]), ("Set-Cookie", ["a", "b", "c"])]
      ∧ debugInfo htmlStep "responseBody" = GoVal.bytes "&lt;b&gt;"
      ∧ (GoMap.keys
          ([("Content-Type", ["text/html; charset=utf-8"]), ("Set-Cookie", ["a", "b", "c"])] :
            Header)).Nodup)
    ∧ (∃ body err,
        decodeResponse sampleEnv htmlStep =
          .ok (([("Content-Type", ["text/html; charset=utf-8"]), ("Set-Cookie", ["a", "b", "c"])] :
              Header).map (fun kv => (kv.1, stringsJoin kv.2 ",")), body, err))
    ∧ decodeResponse sampleEnv htmlStep =
        .ok ([("Content-Type", "text/html; charset=utf-8"), ("Set-Cookie", "a,b,c")],
          GoVal.string "<b>", none) :=
  ⟨⟨rfl, rfl, by decide⟩,
    (headers_folded sampleEnv htmlStep
      [("Content-Type", ["text/html; charset=utf-8"]), ("Set-Cookie", ["a", "b", "c"])]
      "&lt;b&gt;" rfl rfl (by decide)).1,
    rfl⟩

/-- C2: in normal mode the events of `Start` are one `aggregated` event per record, in
stream order, then the completion send, then the print of the final document; on a
stream of one record the completion send is the second event and the print the third. -/
theorem start_normal_trace (env : Env) (result : Result) (input : List ScenarioResult) :
    (Start env { result := result, debug := false } input).2 =
        input.map Event.aggregated ++
          [Event.doneSent,
            Event.printJson (reportResult (input.foldl env.aggregate result)).MarshalJSON]
      ∧ (Start sampleEnv (Init false) [sampleRecord]).2.map (fun e => (e.isDone, e.isPrint))
          = [(false, false), (true, false), (false, true)] :=
  ⟨start_normal env { result := result, debug := false } input rfl, by decide⟩

/-- C8, counterexample: in debug mode, on a stream of one record whose step has no debug
info, `Start` panics at the first type assertion and sends no completion signal. -/
theorem start_debug_untyped_panics :
    (Start sampleEnv (Init true) [untypedRecord]).2
        = [Event.panicked "interface conversion: interface \x7b\x7d is nil, not http.Header"]
      ∧ doneCount (Start sampleEnv (Init true) [untypedRecord]).2 = 0
      ∧ doneCount (Start sampleEnv (Init true) [untypedRecord]).2 ≠ 1 :=
  ⟨rfl, by decide, by decide⟩

/-- C8, amended: for every stream in normal mode, and for every stream whose steps meet
the debug-info contract in debug mode, the events of `Start` are one consumption event
per record, in stream order, followed by events among which the completion send occurs
exactly once; the whole trace holds exactly one completion send and no panic. -/
theorem start_done_once (env : Env) (s : stdoutJson) (input : List ScenarioResult)
    (hwt : s.debug = true → ∀ r ∈ input, ∀ sr ∈ r.StepResults, wellTyped sr = true) :
    ∃ rest, (Start env s input).2 = input.map (consumed s.debug) ++ rest
      ∧ doneCount rest = 1
      ∧ doneCount (Start env s input).2 = 1
      ∧ (Start env s input).2.any Event.isPanic = false := by
  cases hd : s.debug with
  | false =>
    have ht := start_normal env s input hd
    have hc : input.map (consumed false) = input.map Event.aggregated := rfl
    refine ⟨[Event.doneSent,
      Event.printJson (reportResult (input.foldl env.aggregate s.result)).MarshalJSON],
      by rw [ht, hc], rfl, ?_, ?_⟩
    · rw [ht]
      simp [doneCount, List.filter_append, filter_isDone_map_aggregated, Event.isDone]
    · rw [ht, List.any_append, any_isPanic_map_aggregated]
      rfl
  | true =>
    obtain ⟨results, ht⟩ := start_debug env s input hd (hwt hd)
    have hc : input.map (consumed true) = input.map Event.debugged := rfl
    refine ⟨[Event.printDebug (marshalDebugResults env results), Event.doneSent],
      by rw [ht, hc], rfl, ?_, ?_⟩
    · rw [ht]
      simp [doneCount, List.filter_append, filter_isDone_map_debugged, Event.isDone]
    · rw [ht, List.any_append, any_isPanic_map_debugged]
      rfl

/-- Witness of the amended C8 in debug mode on a stream of one record of four steps
meeting the debug-info contract. -/
theorem start_done_once_witness :
    ((Init true).debug = true → ∀ r ∈ [sampleRecord], ∀ sr ∈ r.StepResults, wellTyped sr = true)
    ∧ ∃ rest, (Start sampleEnv (Init true) [sampleRecord]).2
          = [sampleRecord].map (consumed (Init true).debug) ++ rest
        ∧ doneCount rest = 1
        ∧ doneCount (Start sampleEnv (Init true) [sampleRecord]).2 = 1
        ∧ (Start sampleEnv (Init true) [sampleRecord]).2.any Event.isPanic = false :=
  ⟨by decide, start_done_once sampleEnv (Init true) [sampleRecord] (by decide)⟩

/-- C9: in debug mode, for a stream of one scenario result whose step ids are pairwise
distinct and whose steps meet the debug-info contract, `Start` consumes the record,
prints the document and sends completion; the ids keyed in `steps` are those of the
steps that carry an error or whose response decodes, in order; a step is keyed exactly
when it is one of these. -/
theorem debug_steps_present (env : Env) (s : stdoutJson) (r : ScenarioResult)
    (hd : s.debug = true)
    (hnodup : (r.StepResults.map (fun sr => sr.StepID)).Nodup)
    (hwt : ∀ sr ∈ r.StepResults, wellTyped sr = true) :
    ∃ results,
      (Start env s [r]).2 =
          [Event.debugged r, Event.printDebug (marshalDebugResults env results), Event.doneSent]
        ∧ GoMap.keys results =
            (r.StepResults.filter (present env)).map (fun sr => sr.StepID)
        ∧ ((marshalDebugResults env results).field? "steps").map JValue.keys =
            some ((r.StepResults.filter (present env)).map (fun sr => toString sr.StepID))
        ∧ ∀ sr ∈ r.StepResults, sr.StepID ∈ GoMap.keys results ↔ present env sr = true := by
  obtain ⟨results, hs, hk⟩ := debugSteps_keys env r.StepResults [] hnodup
    (by intro sr _; simp [GoMap.keys]) hwt
  have hk1 : GoMap.keys results =
      (r.StepResults.filter (present env)).map (fun sr => sr.StepID) := by
    rw [hk]; rfl
  refine ⟨results, ?_, hk1, ?_, ?_⟩
  · unfold Start
    simp only [hd, if_true, printInDebugMode, debugLoop, hs, andThen]
    rfl
  · have : ((marshalDebugResults env results).field? "steps").map JValue.keys
        = some ((GoMap.keys results).map toString) := by
      simp [marshalDebugResults, JValue.field?, GoMap.get?, JValue.fields, JValue.keys,
        GoMap.keys, List.map_map, Function.comp_def]
    rw [this, hk1, List.map_map]
    rfl
  · intro sr hsr
    rw [hk1, List.mem_map]
    constructor
    · rintro ⟨x, hx, hid⟩
      rw [List.mem_filter] at hx
      have : x = sr := List.inj_on_of_nodup_map hnodup hx.1 hsr hid
      rw [← this]; exact hx.2
    · intro hp
      exact ⟨sr, List.mem_filter.2 ⟨hsr, hp⟩, rfl⟩

/-- Witness of C9 on a record with an HTML step, a JSON step, a step with a truncated
JSON body and a failed step: the hypotheses hold, and steps 1, 2 and 4 are the ones that
carry an error or decode. -/
theorem debug_steps_present_witness :
    ((Init true).debug = true
      ∧ (sampleRecord.StepResults.map (fun sr => sr.StepID)).Nodup
      ∧ ∀ sr ∈ sampleRecord.StepResults, wellTyped sr = true)
    ∧ (∃ results,
        (Start sampleEnv (Init true) [sampleRecord]).2 =
            [Event.debugged sampleRecord,
              Event.printDebug (marshalDebugResults sampleEnv results), Event.doneSent]
          ∧ GoMap.keys results =
              (sampleRecord.StepResults.filter (present sampleEnv)).map (fun sr => sr.StepID)
          ∧ ((marshalDebugResults sampleEnv results).field? "steps").map JValue.keys =
              some ((sampleRecord.StepResults.filter (present sampleEnv)).map
                (fun sr => toString sr.StepID))
          ∧ ∀ sr ∈ sampleRecord.StepResults,
              sr.StepID ∈ GoMap.keys results ↔ present sampleEnv sr = true)
    ∧ (sampleRecord.StepResults.filter (present sampleEnv)).map (fun sr => sr.StepID) = [1, 2, 4] :=
  ⟨⟨rfl, by decide, by decide⟩,
    debug_steps_present sampleEnv (Init true) sampleRecord rfl (by decide) (by decide),
    by decide⟩

end Ddosify
